import Mathlib

/-!
Body-section extraction (`backend/backendutil/body.go`)

A shallow embedding of `FetchBodySection` and of the collaborators it calls.

The Go function works on values of the go-message library (`message.Entity`,
`message.Header`, the multipart reader, the header writer) and of package `imap`
(`BodySectionName`).  Those are seen here through what the function can observe of
them: which bytes a header serializes to, which bytes a body reader yields, which
results a multipart reader hands back call after call, and which bytes the writer
created for a header puts into the buffer, while the body is copied through it and
when it is closed.

The Go control flow is kept: the outer loop over the path indexes, the inner counting
loop over `NextPart`, the header write, the optional buffer reset, the optional body
copy, the optional partial extraction, and the deferred `Close`.
-/

namespace backendutil

/-- A byte string (`[]byte`, the content of a `bytes.Buffer`).  No arithmetic is ever
done on the bytes, so they are kept as plain numbers. -/
abbrev Bytes := List Nat

/-- An error handed back by a collaborator (reader, header writer, body reader) that
is not `io.EOF`.  The tag tells one such error from another. -/
structure LibError where
  tag : Nat
deriving DecidableEq, Repr

deriving instance DecidableEq for Except

/-- The `error` values `FetchBodySection` can return: its own `errNoSuchPart`
(line 12) or an error of a collaborator, passed on as it is. -/
inductive Error where
  | errNoSuchPart
  | lib (cause : LibError)
deriving DecidableEq, Repr

/-- What `NextPart` reports in its `err` result: `io.EOF` at the end of the children,
or another error. -/
inductive ReadError where
  | EOF
  | other (cause : LibError)
deriving DecidableEq, Repr

/-- What the writer that `message.CreateWriter` sets up for a header does with the
body bytes written through it.  The writer encodes by the header's transfer encoding
(base64, quoted-printable) and wraps long lines, so the bytes that reach the buffer
need not be the bytes written; and an encoder keeps its last bytes back until `Close`.
For the body bytes `d`, `written d` is what is in the buffer when `io.Copy` returns and
`held d` is what `Close` still adds. -/
structure Encoding where
  written : Bytes → Bytes
  held : Bytes → Bytes

/-- The writer that passes every byte through at once and keeps nothing back: what the
go-message writer does with a short-lined body without transfer encoding. -/
def Encoding.plain : Encoding := ⟨id, fun _ => []⟩

/-- A `message.Header`, seen through the header serializer: `wire` is what
`message.CreateWriter` writes for it (the canonical wire form), or the error with
which the serializer fails; `encoding` is what the writer created for this header does
with the body. -/
structure Header where
  wire : Except LibError Bytes
  encoding : Encoding := Encoding.plain

/-- The `Body` of an entity, an `io.Reader`: reading it yields `data` and then either
`io.EOF` (`err = none`) or a read error. -/
structure Body where
  data : Bytes
  err : Option LibError

/-- A `message.Entity`: header, body, and what its multipart reader does.
`parts = none` when `MultipartReader()` returns `nil` (not a multipart entity);
otherwise the list holds the results of the successive `NextPart` calls, a child or a
read error, and every call after the last one reports `io.EOF`. -/
inductive Entity where
  | mk (Header : Header) (Body : Body) (parts : Option (List (Except LibError Entity)))

/-- Field `e.Header`. -/
def Entity.Header : Entity → Header
  | .mk h _ _ => h

/-- Field `e.Body`. -/
def Entity.Body : Entity → Body
  | .mk _ b _ => b

/-- A multipart reader in the middle of its single forward pass: the results still to
come, and the number of `NextPart` calls made so far. -/
structure MultipartReader where
  rest : List (Except LibError Entity)
  calls : Nat

/-- `e.MultipartReader()`: `none` is Go's `nil`. -/
def Entity.MultipartReader : Entity → Option MultipartReader
  | .mk _ _ none => none
  | .mk _ _ (some ps) => some ⟨ps, 0⟩

/-- `mr.NextPart()`: the next child or an error, and the reader after the call. -/
def MultipartReader.NextPart (mr : MultipartReader) : Except ReadError Entity × MultipartReader :=
  match mr.rest with
  | [] => (.error .EOF, ⟨[], mr.calls + 1⟩)
  | .error c :: rest => (.error (.other c), ⟨rest, mr.calls + 1⟩)
  | .ok p :: rest => (.ok p, ⟨rest, mr.calls + 1⟩)

/-- Modelled from the spec: the part specifiers of package `imap`, the root package
of the repository, whose sources are not at hand.  The spec lists Entire, HeaderOnly, TextOnly and further protocol-specific
variants; the code compares with `imap.EntireSpecifier` and `imap.TextSpecifier`. -/
inductive PartSpecifier where
  | EntireSpecifier
  | HeaderSpecifier
  | MIMESpecifier
  | TextSpecifier
  | other (name : String)
deriving DecidableEq, Repr

/-- Modelled from the spec: `imap.BodySectionName`, declared in package `imap`.  `Path`
is a Go `[]int`; `Partial`, when present, is the (offset, length) pair of the spec. -/
structure BodySectionName where
  Path : List Int
  Specifier : PartSpecifier
  Partial : Option (Nat × Nat)

/-- Modelled from the spec: `BodySectionName.ExtractPartial` of package `imap`, whose
body is not at hand.  The byte sub-sequence of `b` starting at `offset` and spanning up to
`length` bytes, clipped to the size of `b`; `b` itself when there is no range. -/
def BodySectionName.ExtractPartial (sec : BodySectionName) (b : Bytes) : Bytes :=
  match sec.Partial with
  | none => b
  | some (offset, length) => (b.drop offset).take length

/-- The header writer (`*message.Writer`) as a resource: open or closed.  What it does
with the bytes written through it is the `encoding` of the header it was created for;
the bytes it holds back are carried next to the buffer. -/
structure Writer where
  closed : Bool
deriving DecidableEq, Repr

/-- Modelled from the spec: `message.CreateWriter(b, header)` of go-message.  It
serializes the header into the buffer and hands back a writer onto the same buffer,
or fails with the serializer's error. -/
def CreateWriter (b : Bytes) (header : Header) : Except LibError (Writer × Bytes) :=
  match header.wire with
  | .error c => .error c
  | .ok h => .ok (⟨false⟩, b ++ h)

/-- `mw.Close()` of go-message: the writer flushes the bytes `held` it kept back into
the buffer `b` behind it and is released.  The result is the closed writer and the
buffer after the flush. -/
def Writer.Close (_mw : Writer) (held b : Bytes) : Writer × Bytes := (⟨true⟩, b ++ held)

/-- `io.Copy(mw, body)`, the writer `mw` having the encoding `enc` and the buffer `b`
behind it.  The body is read to its end and written through the writer: the result is
the buffer when the copy returns and the bytes the writer still holds back; a read
error of the body is returned. -/
def Copy (enc : Encoding) (b : Bytes) (body : Body) : Except LibError (Bytes × Bytes) :=
  match body.err with
  | some c => .error c
  | none => .ok (b ++ enc.written body.data, enc.held body.data)

/-- Lines 25-37, the loop `for j := 1; j <= n; j++`.  The first argument bounds the
number of iterations still allowed; `n.toNat` is enough for a run from `j = 1`.
The result is the error returned from inside the loop, or the value of `e` and the
reader when the loop is left. -/
def nextParts (n : Int) : Nat → Int → MultipartReader → Entity →
    Except Error (Entity × MultipartReader)
  | 0, _, mr, e => .ok (e, mr)
  | fuel + 1, j, mr, e =>
    if j ≤ n then
      match mr.NextPart with
      | (.error .EOF, _) => .error .errNoSuchPart
      | (.error (.other c), _) => .error (.lib c)
      | (.ok p, mr') =>
        if j = n then .ok (p, mr')
        else nextParts n fuel (j + 1) mr' e
    else .ok (e, mr)

/-- Lines 17-38, the loop `for i := len(section.Path) - 1; i >= 0; i--`.  The counter
is Go's `i + 1`: at `k + 1` the index `Path[k]` is used, at `0` the loop is over. -/
def findPart (Path : List Int) : Nat → Entity → Except Error Entity
  | 0, e => .ok e
  | k + 1, e =>
    let n := Path.getD k 0
    match e.MultipartReader with
    | none => .error .errNoSuchPart
    | some mr =>
      match nextParts n n.toNat 1 mr e with
      | .error err => .error err
      | .ok (e', _) => findPart Path k e'

/-- What a call leaves behind: the pair `(imap.Literal, error)` it returns, the
literal given by its bytes, and the header writer as it is when the call returns
(`none` when no writer was created). -/
structure Return where
  result : Except Error Bytes
  mw : Option Writer

/-- Lines 40-67: render the entity `e` found by the path.  The literal of line 63 is
the buffer itself, read by the caller after the deferred `Close` of line 48 has
flushed into it; the literal of line 65 is cut from the bytes the buffer holds at that
line, before the `Close`. -/
def render (e : Entity) (sec : BodySectionName) : Return :=
  -- b := new(bytes.Buffer); mw, err := message.CreateWriter(b, e.Header)
  match CreateWriter [] e.Header with
  | .error err => ⟨.error (.lib err), none⟩
  | .ok (mw, b) =>
    -- if section.Specifier == imap.TextSpecifier { b.Reset() }
    let b := if sec.Specifier = .TextSpecifier then [] else b
    -- switch section.Specifier { case imap.EntireSpecifier, imap.TextSpecifier: io.Copy }
    let copied : Except LibError (Bytes × Bytes) :=
      if sec.Specifier = .EntireSpecifier ∨ sec.Specifier = .TextSpecifier then
        Copy e.Header.encoding b e.Body
      else .ok (b, [])
    match copied with
    | .error err =>
      -- return nil, err; the deferred mw.Close() runs, the buffer is dropped
      ⟨.error (.lib err), some (mw.Close [] b).1⟩
    | .ok (b, held) =>
      match sec.Partial with
      | some _ =>
        -- l = bytes.NewReader(section.ExtractPartial(b.Bytes())); then mw.Close()
        ⟨.ok (sec.ExtractPartial b), some (mw.Close held b).1⟩
      | none =>
        -- l = b; then mw.Close(), which writes into the same buffer
        ⟨.ok (mw.Close held b).2, some (mw.Close held b).1⟩

/-- The function `FetchBodySection` (lines 15-68). -/
def FetchBodySection (e : Entity) (sec : BodySectionName) : Return :=
  match findPart sec.Path sec.Path.length e with
  | .error err => ⟨.error err, none⟩
  | .ok e => render e sec

/-! ## The path of the spec, read root-to-target

These two definitions follow the words of the spec, not the code: a path is a
root-to-target chain of 1-based child indexes. -/

/-- Spec wording: the child of `e` with the 1-based index `n` among its immediate
children, when `e` is multipart and has such a child. -/
def Entity.child : Entity → Int → Option Entity
  | .mk _ _ (some ps), n =>
    if 1 ≤ n then
      match ps.get? (n.toNat - 1) with
      | some (.ok c) => some c
      | _ => none
    else none
  | .mk _ _ none, _ => none

/-- Spec wording: the entity a path `[n1, n2, ..., nk]` denotes, descending from the
root with `n1` first and `nk` last; the empty path denotes the root. -/
def specTarget : Entity → List Int → Option Entity
  | e, [] => some e
  | e, n :: rest =>
    match e.child n with
    | none => none
    | some c => specTarget c rest

/-! ## Sample messages -/

/-- A leaf entity with the given header wire form and body bytes. -/
def leaf (h d : Bytes) : Entity := .mk { wire := .ok h } ⟨d, none⟩ none

/-- A multipart entity whose children all read without error. -/
def multipart (h d : Bytes) (cs : List Entity) : Entity :=
  .mk { wire := .ok h } ⟨d, none⟩ (some (cs.map .ok))

/-- First child of the first top-level part. -/
def partA1 : Entity := leaf [11, 1] [65, 49]
/-- Second child of the first top-level part. -/
def partA2 : Entity := leaf [12, 1] [65, 50]
/-- First child of the second top-level part. -/
def partB1 : Entity := leaf [21, 1] [66, 49]
/-- Second child of the second top-level part. -/
def partB2 : Entity := leaf [22, 1] [66, 50]
/-- First top-level part, itself multipart. -/
def partA : Entity := multipart [10, 1] [65] [partA1, partA2]
/-- Second top-level part, itself multipart. -/
def partB : Entity := multipart [20, 1] [66] [partB1, partB2]
/-- Third top-level part, a leaf. -/
def partC : Entity := leaf [30, 1] [67]
/-- A three-level message: a multipart root, two multipart parts and a leaf under it,
leaves under those. -/
def nestedMessage : Entity := multipart [1, 1] [77] [partA, partB, partC]

/-- A leaf message that renders to 20 bytes: 8 header bytes and 12 body bytes. -/
def twentyByteMessage : Entity := leaf (List.range 8) (List.range 12)

/-- A multipart entity whose reader fails with error 7 at its second call. -/
def brokenReaderMessage : Entity :=
  .mk { wire := .ok [1, 1] } ⟨[77], none⟩ (some [.ok partA1, .error ⟨7⟩, .ok partA2])

/-- A multipart entity whose reader hands back two children and fails with error 7 at
its third call. -/
def trailingErrorMessage : Entity :=
  .mk { wire := .ok [1, 1] } ⟨[77], none⟩ (some [.ok partA1, .ok partA2, .error ⟨7⟩])

/-- A leaf whose header fails to serialize, with error 8. -/
def brokenHeaderPart : Entity := .mk { wire := .error ⟨8⟩ } ⟨[66], none⟩ none

/-- A leaf whose body fails to read, with error 9, after one byte. -/
def brokenBodyPart : Entity := .mk { wire := .ok [40, 1] } ⟨[66], some ⟨9⟩⟩ none

/-- A leaf with a base64 transfer encoding whose body is the one byte `M` (77): the
writer puts nothing into the buffer while the byte is copied and writes `TQ==`
(84, 81, 61, 61) when it is closed. -/
def base64Part : Entity :=
  .mk { wire := .ok [50, 1], encoding := ⟨fun _ => [], fun _ => [84, 81, 61, 61]⟩ }
    ⟨[77], none⟩ none

/-- A multipart message whose first part is a leaf and whose second part is multipart. -/
def leafFirstMessage : Entity := multipart [2, 1] [78] [partC, partA]

/-! ## The two loops, unrolled

Auxiliary formulations used in the proofs: the inner loop as "read `k + 1` results",
the outer loop as a walk over the indexes in the order in which the code uses them. -/

/-- Read `k + 1` results from the reader and keep the last: the inner loop run from
`j = n - k`. -/
def readTo : Nat → MultipartReader → Except Error (Entity × MultipartReader)
  | k, mr =>
    match mr.NextPart with
    | (.error .EOF, _) => .error .errNoSuchPart
    | (.error (.other c), _) => .error (.lib c)
    | (.ok p, mr') =>
      match k with
      | 0 => .ok (p, mr')
      | k + 1 => readTo k mr'

/-- One pass through the body of the outer loop, for the index `n`. -/
def descend (n : Int) (e : Entity) : Except Error Entity :=
  match e.MultipartReader with
  | none => .error .errNoSuchPart
  | some mr =>
    match nextParts n n.toNat 1 mr e with
    | .error err => .error err
    | .ok (e', _) => .ok e'

/-- The outer loop over a list of indexes given in the order of use. -/
def walk : List Int → Entity → Except Error Entity
  | [], e => .ok e
  | n :: ns, e =>
    match descend n e with
    | .error err => .error err
    | .ok e' => walk ns e'

/-! ## Lemmas on the loops -/

theorem nextParts_past (n : Int) (fuel : Nat) (j : Int) (mr : MultipartReader) (e : Entity)
    (h : n < j) : nextParts n fuel j mr e = .ok (e, mr) := by
  cases fuel with
  | zero => rfl
  | succ f => simp only [nextParts, if_neg (not_le.mpr h)]

theorem nextParts_eq_readTo (n : Int) (fuel : Nat) :
    ∀ (k : Nat) (j : Int) (mr : MultipartReader) (e : Entity),
      j + k = n → k < fuel → nextParts n fuel j mr e = readTo k mr := by
  induction fuel with
  | zero => intro k j mr e _ hk; omega
  | succ f ih =>
    intro k j mr e hj hk
    have hle : j ≤ n := by omega
    rw [nextParts, if_pos hle]
    cases k with
    | zero =>
      have hjn : j = n := by omega
      rw [readTo]
      rcases hnp : mr.NextPart with ⟨r, mr'⟩
      rcases r with (_ | c) | p <;> simp [hjn]
    | succ k =>
      have hjn : j ≠ n := by omega
      rw [readTo]
      rcases hnp : mr.NextPart with ⟨r, mr'⟩
      rcases r with (_ | c) | p
      · rfl
      · rfl
      · simp only [if_neg hjn]
        exact ih k (j + 1) mr' e (by omega) (by omega)

/-- The inner loop as the code starts it: nothing happens for an index below 1,
otherwise `n` results are read. -/
theorem nextParts_run (n : Int) (mr : MultipartReader) (e : Entity) :
    nextParts n n.toNat 1 mr e =
      if 1 ≤ n then readTo (n.toNat - 1) mr else .ok (e, mr) := by
  split_ifs with h
  · exact nextParts_eq_readTo n n.toNat (n.toNat - 1) 1 mr e (by omega) (by omega)
  · exact nextParts_past n n.toNat 1 mr e (by omega)

/-- More iterations allowed than `n.toNat` change nothing: the bound is never what
stops the loop. -/
theorem nextParts_fuel (n : Int) (fuel : Nat) (mr : MultipartReader) (e : Entity)
    (h : n.toNat ≤ fuel) :
    nextParts n fuel 1 mr e = nextParts n n.toNat 1 mr e := by
  rw [nextParts_run]
  split_ifs with h1
  · exact nextParts_eq_readTo n fuel (n.toNat - 1) 1 mr e (by omega) (by omega)
  · exact nextParts_past n fuel 1 mr e (by omega)

theorem findPart_succ (Path : List Int) (k : Nat) (e : Entity) :
    findPart Path (k + 1) e =
      match descend (Path.getD k 0) e with
      | .error err => .error err
      | .ok e' => findPart Path k e' := by
  rw [findPart, descend]
  cases e.MultipartReader with
  | none => rfl
  | some mr =>
    simp only
    rcases nextParts (Path.getD k 0) (Path.getD k 0).toNat 1 mr e with err | ⟨e', mr'⟩ <;> rfl

/-- The outer loop uses the indexes from the last one of the path to the first. -/
theorem findPart_eq_walk (Path : List Int) :
    ∀ (k : Nat) (e : Entity), k ≤ Path.length →
      findPart Path k e = walk (Path.take k).reverse e := by
  intro k
  induction k with
  | zero => intro e _; rfl
  | succ k ih =>
    intro e hk
    have hlt : k < Path.length := hk
    have htake : (Path.take (k + 1)).reverse = Path.getD k 0 :: (Path.take k).reverse := by
      rw [List.take_succ, List.reverse_append]
      simp [List.getD, List.get?_eq_get hlt, List.getElem?_eq_getElem hlt]
    rw [findPart_succ, htake, walk]
    cases descend (Path.getD k 0) e with
    | error err => rfl
    | ok e' => exact ih e' (by omega)

theorem findPart_walk (Path : List Int) (e : Entity) :
    findPart Path Path.length e = walk Path.reverse e := by
  rw [findPart_eq_walk Path Path.length e le_rfl, List.take_length]

theorem walk_append (xs ys : List Int) (e : Entity) :
    walk (xs ++ ys) e =
      match walk xs e with
      | .error err => .error err
      | .ok e' => walk ys e' := by
  induction xs generalizing e with
  | nil => rfl
  | cons n ns ih =>
    simp only [List.cons_append, walk]
    cases descend n e with
    | error err => rfl
    | ok e' => exact ih e'

theorem FetchBodySection_result (e : Entity) (sec : BodySectionName) :
    (FetchBodySection e sec).result =
      match findPart sec.Path sec.Path.length e with
      | .error err => .error err
      | .ok t => (render t sec).result := by
  unfold FetchBodySection
  cases findPart sec.Path sec.Path.length e <;> rfl

theorem render_result_error (t : Entity) (sec : BodySectionName) (c : LibError)
    (hw : t.Header.wire = .error c) :
    (render t sec).result = .error (.lib c) := by
  simp only [render, CreateWriter, hw]

/-- The literal when the body is copied and reads to its end: cut from the buffer as
the copy leaves it when there is a partial range, the buffer with the writer's last
bytes flushed into it when there is none. -/
theorem render_copied (t : Entity) (sec : BodySectionName) (h : Bytes)
    (hw : t.Header.wire = .ok h)
    (hs : sec.Specifier = .EntireSpecifier ∨ sec.Specifier = .TextSpecifier)
    (he : t.Body.err = none) :
    (render t sec).result =
      match sec.Partial with
      | some _ => .ok (sec.ExtractPartial
          ((if sec.Specifier = .TextSpecifier then [] else h)
            ++ t.Header.encoding.written t.Body.data))
      | none => .ok ((if sec.Specifier = .TextSpecifier then [] else h)
          ++ t.Header.encoding.written t.Body.data ++ t.Header.encoding.held t.Body.data) := by
  simp only [render, CreateWriter, hw, List.nil_append, if_pos hs, Copy, he, Writer.Close]
  cases sec.Partial <;> rfl

/-- A body that fails to read: the error is returned and the writer is closed. -/
theorem render_copy_error (t : Entity) (sec : BodySectionName) (h : Bytes) (c : LibError)
    (hw : t.Header.wire = .ok h)
    (hs : sec.Specifier = .EntireSpecifier ∨ sec.Specifier = .TextSpecifier)
    (he : t.Body.err = some c) :
    render t sec = ⟨.error (.lib c), some ⟨true⟩⟩ := by
  simp only [render, CreateWriter, hw, List.nil_append, if_pos hs, Copy, he, Writer.Close]

/-- The literal when the body is not copied: the writer has nothing to flush. -/
theorem render_header_only (t : Entity) (sec : BodySectionName) (h : Bytes)
    (hw : t.Header.wire = .ok h)
    (hne : sec.Specifier ≠ .EntireSpecifier) (hnt : sec.Specifier ≠ .TextSpecifier) :
    (render t sec).result =
      match sec.Partial with
      | some _ => .ok (sec.ExtractPartial h)
      | none => .ok h := by
  have hs : ¬ (sec.Specifier = .EntireSpecifier ∨ sec.Specifier = .TextSpecifier) := by
    simp [hne, hnt]
  simp only [render, CreateWriter, hw, List.nil_append, if_neg hs, if_neg hnt, Writer.Close,
    List.append_nil]
  cases sec.Partial <;> rfl

/-- The writer when the rendering is over: none when the header did not serialize,
closed otherwise. -/
theorem render_mw (t : Entity) (sec : BodySectionName) :
    (render t sec).mw =
      match t.Header.wire with
      | .error _ => none
      | .ok _ => some ⟨true⟩ := by
  cases hw : t.Header.wire with
  | error c => simp only [render, CreateWriter, hw]
  | ok h =>
    by_cases hs : sec.Specifier = .EntireSpecifier ∨ sec.Specifier = .TextSpecifier
    · cases he : t.Body.err with
      | some c => rw [render_copy_error t sec h c hw hs he]
      | none =>
        simp only [render, CreateWriter, hw, if_pos hs, Copy, he, Writer.Close]
        cases sec.Partial <;> rfl
    · simp only [render, CreateWriter, hw, if_neg hs, Writer.Close]
      cases sec.Partial <;> rfl

theorem render_result_ne_noSuchPart (t : Entity) (sec : BodySectionName) :
    (render t sec).result ≠ .error .errNoSuchPart := by
  cases hw : t.Header.wire with
  | error c => simp [render_result_error t sec c hw]
  | ok h =>
    by_cases hs : sec.Specifier = .EntireSpecifier ∨ sec.Specifier = .TextSpecifier
    · cases he : t.Body.err with
      | some c => simp [render_copy_error t sec h c hw hs he]
      | none =>
        rw [render_copied t sec h hw hs he]
        cases sec.Partial <;> simp
    · rw [render_header_only t sec h hw (fun h1 => hs (Or.inl h1)) (fun h1 => hs (Or.inr h1))]
      cases sec.Partial <;> simp

theorem readTo_short (cs : List Entity) :
    ∀ (k calls : Nat), cs.length ≤ k →
      readTo k ⟨cs.map .ok, calls⟩ = .error .errNoSuchPart := by
  induction cs with
  | nil => intro k calls _; rw [readTo]; rfl
  | cons c cs ih =>
    intro k calls hk
    cases k with
    | zero => simp at hk
    | succ k =>
      rw [readTo]
      simp only [MultipartReader.NextPart, List.map_cons]
      exact ih k (calls + 1) (by simpa using hk)

theorem descend_leaf (n : Int) (e : Entity) (h : e.MultipartReader = none) :
    descend n e = .error .errNoSuchPart := by
  simp only [descend, h]

/-- An index still to be used after the indexes `back`: the code goes through one
pass of the outer loop for `n` on the entity `back` led to, then through `front`. -/
theorem findPart_split (root t : Entity) (front back : List Int) (n : Int)
    (hreach : findPart back back.length root = .ok t) :
    findPart (front ++ n :: back) (front ++ n :: back).length root =
      match descend n t with
      | .error err => .error err
      | .ok e' => walk front.reverse e' := by
  rw [findPart_walk] at hreach ⊢
  rw [List.reverse_append, List.reverse_cons, List.append_assoc, walk_append, hreach]
  simp only [List.singleton_append, walk]
  cases descend n t <;> rfl

theorem descend_eq (n : Int) (e : Entity) :
    descend n e =
      match e.MultipartReader with
      | none => .error .errNoSuchPart
      | some mr => if 1 ≤ n then (readTo (n.toNat - 1) mr).map Prod.fst else .ok e := by
  unfold descend
  cases e.MultipartReader with
  | none => rfl
  | some mr =>
    simp only [nextParts_run]
    split_ifs with h
    · rcases readTo (n.toNat - 1) mr with err | ⟨e', mr'⟩ <;> rfl
    · rfl

/-- A read error met among the first `k + 1` results, after children only, is what the
inner loop returns. -/
theorem readTo_error (pre : List Entity) (c : LibError)
    (post : List (Except LibError Entity)) :
    ∀ (k calls : Nat), pre.length ≤ k →
      readTo k ⟨pre.map .ok ++ .error c :: post, calls⟩ = .error (.lib c) := by
  induction pre with
  | nil => intro k calls _; rw [readTo]; rfl
  | cons p pre ih =>
    intro k calls hk
    cases k with
    | zero => simp at hk
    | succ k =>
      rw [readTo]
      simp only [MultipartReader.NextPart, List.map_cons, List.cons_append]
      exact ih k (calls + 1) (by simpa using hk)

/-- The inner loop returns the no-such-part error only when the reader runs out of
children: all its results are children, and there are too few of them. -/
theorem readTo_noSuchPart :
    ∀ (k : Nat) (mr : MultipartReader), readTo k mr = .error .errNoSuchPart →
      ∃ cs : List Entity, mr.rest = cs.map .ok ∧ cs.length ≤ k := by
  intro k
  induction k with
  | zero =>
    intro mr h
    rw [readTo] at h
    rcases mr with ⟨rest, calls⟩
    rcases rest with _ | ⟨x, rest⟩
    · exact ⟨[], rfl, le_rfl⟩
    · rcases x with c | p <;> simp [MultipartReader.NextPart] at h
  | succ k ih =>
    intro mr h
    rw [readTo] at h
    rcases mr with ⟨rest, calls⟩
    rcases rest with _ | ⟨x, rest⟩
    · exact ⟨[], rfl, Nat.zero_le _⟩
    · rcases x with c | p
      · simp [MultipartReader.NextPart] at h
      · simp only [MultipartReader.NextPart] at h
        obtain ⟨cs, hcs, hlen⟩ := ih ⟨rest, calls + 1⟩ h
        simp only at hcs
        exact ⟨p :: cs, by simp [hcs], by simpa using hlen⟩

/-- A successful run of the inner loop for `k + 1` results has made `k + 1` calls and
left the reader right after them. -/
theorem readTo_calls :
    ∀ (k : Nat) (mr : MultipartReader) (p : Entity) (mr' : MultipartReader),
      readTo k mr = .ok (p, mr') →
        mr'.calls = mr.calls + (k + 1) ∧ mr'.rest = mr.rest.drop (k + 1) := by
  intro k
  induction k with
  | zero =>
    intro mr p mr' h
    rw [readTo] at h
    rcases mr with ⟨rest, calls⟩
    rcases rest with _ | ⟨x, rest⟩
    · simp [MultipartReader.NextPart] at h
    · rcases x with c | q
      · simp [MultipartReader.NextPart] at h
      · simp only [MultipartReader.NextPart, Except.ok.injEq, Prod.mk.injEq] at h
        obtain ⟨-, rfl⟩ := h
        simp
  | succ k ih =>
    intro mr p mr' h
    rw [readTo] at h
    rcases mr with ⟨rest, calls⟩
    rcases rest with _ | ⟨x, rest⟩
    · simp [MultipartReader.NextPart] at h
    · rcases x with c | q
      · simp [MultipartReader.NextPart] at h
      · simp only [MultipartReader.NextPart] at h
        obtain ⟨hc, hr⟩ := ih ⟨rest, calls + 1⟩ p mr' h
        simp only at hc hr
        exact ⟨by rw [hc]; simp only; omega, by rw [hr]; rfl⟩

/-- The entity the inner loop ends on depends on the first `k + 1` results only. -/
theorem readTo_first_results :
    ∀ (k : Nat) (pre post post' : List (Except LibError Entity)) (calls : Nat),
      pre.length = k + 1 →
        (readTo k ⟨pre ++ post', calls⟩).map Prod.fst
          = (readTo k ⟨pre ++ post, calls⟩).map Prod.fst := by
  intro k
  induction k with
  | zero =>
    intro pre post post' calls hlen
    rcases pre with _ | ⟨x, pre⟩
    · simp at hlen
    · rw [readTo, readTo]
      rcases x with c | q <;> rfl
  | succ k ih =>
    intro pre post post' calls hlen
    rcases pre with _ | ⟨x, pre⟩
    · simp at hlen
    · rw [readTo, readTo]
      rcases x with c | q
      · rfl
      · simp only [MultipartReader.NextPart, List.cons_append]
        exact ih pre post post' (calls + 1) (by simpa using hlen)

/-- The path of the section plays no part in the rendering. -/
theorem render_path (t : Entity) (P Q : List Int) (spec : PartSpecifier)
    (range : Option (Nat × Nat)) :
    render t ⟨P, spec, range⟩ = render t ⟨Q, spec, range⟩ := rfl

theorem FetchBodySection_eq (e : Entity) (sec : BodySectionName) :
    FetchBodySection e sec =
      match findPart sec.Path sec.Path.length e with
      | .error err => ⟨.error err, none⟩
      | .ok t => render t sec := rfl

theorem descend_noSuchPart (n : Int) (e : Entity)
    (h : descend n e = .error .errNoSuchPart) :
    e.MultipartReader = none ∨
      ∃ (mr : MultipartReader) (cs : List Entity),
        e.MultipartReader = some mr ∧ mr.rest = cs.map .ok ∧ (cs.length : Int) < n := by
  rw [descend_eq] at h
  cases hmr : e.MultipartReader with
  | none => exact Or.inl rfl
  | some mr =>
    right
    simp only [hmr] at h
    split_ifs at h with h1
    · have hread : readTo (n.toNat - 1) mr = .error .errNoSuchPart := by
        rcases hr : readTo (n.toNat - 1) mr with err | ⟨e', mr'⟩
        · rw [hr] at h
          simpa [Except.map] using h
        · rw [hr] at h
          simp [Except.map] at h
      obtain ⟨cs, hcs, hlen⟩ := readTo_noSuchPart _ mr hread
      exact ⟨mr, cs, rfl, hcs, by omega⟩

/-- The outer loop returns the no-such-part error only at an index that meets an
entity without multipart reader or a reader that runs out of children. -/
theorem walk_noSuchPart :
    ∀ (xs : List Int) (root : Entity), walk xs root = .error .errNoSuchPart →
      ∃ (pre : List Int) (n : Int) (post : List Int) (t : Entity),
        xs = pre ++ n :: post ∧ walk pre root = .ok t ∧
        (t.MultipartReader = none ∨
          ∃ (mr : MultipartReader) (cs : List Entity),
            t.MultipartReader = some mr ∧ mr.rest = cs.map .ok ∧ (cs.length : Int) < n) := by
  intro xs
  induction xs with
  | nil => intro root h; simp [walk] at h
  | cons n ns ih =>
    intro root h
    rw [walk] at h
    cases hd : descend n root with
    | error err =>
      rw [hd] at h
      simp only [Except.error.injEq] at h
      subst h
      exact ⟨[], n, ns, root, rfl, rfl, descend_noSuchPart n root hd⟩
    | ok e' =>
      rw [hd] at h
      obtain ⟨pre, m, post, t, hxs, hwalk, hcase⟩ := ih e' h
      refine ⟨n :: pre, m, post, t, by simp [hxs], ?_, hcase⟩
      simp only [walk, hd, hwalk]

/-! ## C1: the order in which the path is used -/

/-- C1 (evaluation at the failing input): on the three-level message, path `[2, 1]`,
entire specifier, no partial range, the spec's root-to-target reading denotes the first
child of the second top-level part, whose header and body are `[21, 1]` and `[66, 49]`;
the code uses index 1 first and index 2 second and returns the header and body of the
second child of the first top-level part. -/
theorem path_used_last_to_first :
    specTarget nestedMessage [2, 1] = some partB1
    ∧ partB1.Header.wire = .ok [21, 1] ∧ partB1.Body.data = [66, 49]
    ∧ (FetchBodySection nestedMessage ⟨[2, 1], .EntireSpecifier, none⟩).result
        = .ok [12, 1, 65, 50]
    ∧ (FetchBodySection nestedMessage ⟨[2, 1], .EntireSpecifier, none⟩).result
        ≠ .ok ([21, 1] ++ [66, 49]) := by
  refine ⟨rfl, rfl, rfl, rfl, ?_⟩
  rw [show (FetchBodySection nestedMessage ⟨[2, 1], .EntireSpecifier, none⟩).result
        = .ok [12, 1, 65, 50] from rfl]
  decide

/-! ## C2, C3, C4: what is rendered for each specifier -/

/-- C2 (the claim as written fails): the base64 part has the header `[50, 1]` and the
body byte `M` (77), its body reads to the end, and the entire specifier without
partial range returns the header followed by `TQ==`, not the header followed by the
body byte. -/
theorem entire_is_not_header_then_raw_body :
    findPart [] ([] : List Int).length base64Part = .ok base64Part
    ∧ base64Part.Header.wire = .ok [50, 1]
    ∧ base64Part.Body.data = [77] ∧ base64Part.Body.err = none
    ∧ (FetchBodySection base64Part ⟨[], .EntireSpecifier, none⟩).result
        = .ok [50, 1, 84, 81, 61, 61]
    ∧ (FetchBodySection base64Part ⟨[], .EntireSpecifier, none⟩).result
        ≠ .ok ([50, 1] ++ [77]) := by
  refine ⟨rfl, rfl, rfl, rfl, rfl, ?_⟩
  rw [show (FetchBodySection base64Part ⟨[], .EntireSpecifier, none⟩).result
        = .ok [50, 1, 84, 81, 61, 61] from rfl]
  decide

/-- C2 (amended): with the entire specifier and no partial range, a literal is returned
exactly when the path loop finds an entity whose header serializes and whose body reads
to its end, and the literal is then the serialized header followed by what the entity's
writer makes of the body bytes, first the bytes it writes during the copy, then the
bytes it flushes when closed, and nothing else.  When the writer passes the body
through and holds nothing back, that is the header followed by the body bytes. -/
theorem entire_is_header_then_written_body (root : Entity) (Path : List Int) (lit : Bytes) :
    ((FetchBodySection root ⟨Path, .EntireSpecifier, none⟩).result = .ok lit ↔
      ∃ t h, findPart Path Path.length root = .ok t ∧ t.Header.wire = .ok h
        ∧ t.Body.err = none
        ∧ lit = h ++ t.Header.encoding.written t.Body.data
                  ++ t.Header.encoding.held t.Body.data)
    ∧ (∀ t h, findPart Path Path.length root = .ok t → t.Header.wire = .ok h →
        t.Body.err = none →
        t.Header.encoding.written t.Body.data = t.Body.data →
        t.Header.encoding.held t.Body.data = [] →
        (FetchBodySection root ⟨Path, .EntireSpecifier, none⟩).result
          = .ok (h ++ t.Body.data)) := by
  have key : ∀ t h, findPart Path Path.length root = .ok t → t.Header.wire = .ok h →
      t.Body.err = none →
      (FetchBodySection root ⟨Path, .EntireSpecifier, none⟩).result
        = .ok (h ++ t.Header.encoding.written t.Body.data
                 ++ t.Header.encoding.held t.Body.data) := by
    intro t h hf hw he
    rw [FetchBodySection_result]
    simp only [hf]
    rw [render_copied t _ h hw (Or.inl rfl) he]
    simp
  refine ⟨⟨?_, ?_⟩, ?_⟩
  · intro hres
    rw [FetchBodySection_result] at hres
    cases hf : findPart Path Path.length root with
    | error err => simp [hf] at hres
    | ok t =>
      simp only [hf] at hres
      cases hw : t.Header.wire with
      | error c => simp [render_result_error t _ c hw] at hres
      | ok h =>
        cases he : t.Body.err with
        | some c => simp [render_copy_error t ⟨Path, .EntireSpecifier, none⟩ h c hw (Or.inl rfl) he] at hres
        | none =>
          rw [render_copied t _ h hw (Or.inl rfl) he] at hres
          simp only [reduceCtorEq, if_false, Except.ok.injEq] at hres
          exact ⟨t, h, rfl, hw, he, hres.symm⟩
  · rintro ⟨t, h, hf, hw, he, rfl⟩
    exact key t h hf hw he
  · intro t h hf hw he hwritten hheld
    rw [key t h hf hw he, hwritten, hheld, List.append_nil]

/-- C2 (amended), on the first child of the second top-level part of the sample
message, found by the path `[1, 2]` (index 2 is used first), whose writer passes the
body through: header `[21, 1]`, then body `[66, 49]`. -/
theorem entire_is_header_then_written_body_witness :
    (FetchBodySection nestedMessage ⟨[1, 2], .EntireSpecifier, none⟩).result
      = .ok [21, 1, 66, 49] :=
  (entire_is_header_then_written_body nestedMessage [1, 2] [21, 1, 66, 49]).2
    partB1 [21, 1] rfl rfl rfl rfl rfl

/-- C3 (the claim as written fails): on the base64 part, whose body is the byte `M`
(77), the text specifier without partial range returns `TQ==`, not the body byte. -/
theorem text_is_not_raw_body :
    findPart [] ([] : List Int).length base64Part = .ok base64Part
    ∧ base64Part.Body.data = [77] ∧ base64Part.Body.err = none
    ∧ (FetchBodySection base64Part ⟨[], .TextSpecifier, none⟩).result
        = .ok [84, 81, 61, 61]
    ∧ (FetchBodySection base64Part ⟨[], .TextSpecifier, none⟩).result ≠ .ok [77] := by
  refine ⟨rfl, rfl, rfl, rfl, ?_⟩
  rw [show (FetchBodySection base64Part ⟨[], .TextSpecifier, none⟩).result
        = .ok [84, 81, 61, 61] from rfl]
  decide

/-- C3 (amended): with the body-only (text) specifier and no partial range, a literal
is returned exactly when the path loop finds an entity whose header serializes and
whose body reads to its end, and the literal then holds no header byte: it is what the
entity's writer makes of the body bytes, first the bytes it writes during the copy,
then the bytes it flushes when closed, whatever the header serializes to.  When the
writer passes the body through and holds nothing back, that is the body bytes. -/
theorem text_is_written_body_only (root : Entity) (Path : List Int) (lit : Bytes) :
    ((FetchBodySection root ⟨Path, .TextSpecifier, none⟩).result = .ok lit ↔
      ∃ t h, findPart Path Path.length root = .ok t ∧ t.Header.wire = .ok h
        ∧ t.Body.err = none
        ∧ lit = t.Header.encoding.written t.Body.data
                  ++ t.Header.encoding.held t.Body.data)
    ∧ (∀ t h, findPart Path Path.length root = .ok t → t.Header.wire = .ok h →
        t.Body.err = none →
        t.Header.encoding.written t.Body.data = t.Body.data →
        t.Header.encoding.held t.Body.data = [] →
        (FetchBodySection root ⟨Path, .TextSpecifier, none⟩).result
          = .ok t.Body.data) := by
  have key : ∀ t h, findPart Path Path.length root = .ok t → t.Header.wire = .ok h →
      t.Body.err = none →
      (FetchBodySection root ⟨Path, .TextSpecifier, none⟩).result
        = .ok (t.Header.encoding.written t.Body.data
                 ++ t.Header.encoding.held t.Body.data) := by
    intro t h hf hw he
    rw [FetchBodySection_result]
    simp only [hf]
    rw [render_copied t _ h hw (Or.inr rfl) he]
    simp
  refine ⟨⟨?_, ?_⟩, ?_⟩
  · intro hres
    rw [FetchBodySection_result] at hres
    cases hf : findPart Path Path.length root with
    | error err => simp [hf] at hres
    | ok t =>
      simp only [hf] at hres
      cases hw : t.Header.wire with
      | error c => simp [render_result_error t _ c hw] at hres
      | ok h =>
        cases he : t.Body.err with
        | some c => simp [render_copy_error t ⟨Path, .TextSpecifier, none⟩ h c hw (Or.inr rfl) he] at hres
        | none =>
          rw [render_copied t _ h hw (Or.inr rfl) he] at hres
          simp only [if_true, List.nil_append, Except.ok.injEq] at hres
          exact ⟨t, h, rfl, hw, he, hres.symm⟩
  · rintro ⟨t, h, hf, hw, he, rfl⟩
    exact key t h hf hw he
  · intro t h hf hw he hwritten hheld
    rw [key t h hf hw he, hwritten, hheld, List.append_nil]

/-- C3 (amended), on the same part of the sample message: the body `[66, 49]` alone. -/
theorem text_is_written_body_only_witness :
    (FetchBodySection nestedMessage ⟨[1, 2], .TextSpecifier, none⟩).result
      = .ok [66, 49] :=
  (text_is_written_body_only nestedMessage [1, 2] [66, 49]).2
    partB1 [21, 1] rfl rfl rfl rfl rfl

/-- C4: with a specifier other than entire and text and no partial range, a literal is
returned exactly when the path loop finds an entity whose header serializes, and the
literal is then that serialized header; the body is not read, so neither its bytes nor
a read error of it show. -/
theorem other_specifier_is_header_only (root : Entity) (Path : List Int)
    (spec : PartSpecifier) (lit : Bytes)
    (hne : spec ≠ .EntireSpecifier) (hnt : spec ≠ .TextSpecifier) :
    (FetchBodySection root ⟨Path, spec, none⟩).result = .ok lit ↔
      ∃ t, findPart Path Path.length root = .ok t ∧ t.Header.wire = .ok lit := by
  rw [FetchBodySection_result]
  cases hf : findPart Path Path.length root with
  | error err => simp
  | ok t =>
    simp only [Except.ok.injEq, exists_eq_left']
    cases hw : t.Header.wire with
    | error c => simp [render_result_error t _ c hw, hw]
    | ok h =>
      rw [render_header_only t _ h hw hne hnt]
      simp [hw]

/-- C4, at the header specifier on the second top-level part of the sample message,
whose header is `[20, 1]`. -/
theorem other_specifier_is_header_only_witness :
    PartSpecifier.HeaderSpecifier ≠ .EntireSpecifier
    ∧ PartSpecifier.HeaderSpecifier ≠ .TextSpecifier
    ∧ (FetchBodySection nestedMessage ⟨[2], .HeaderSpecifier, none⟩).result = .ok [20, 1] :=
  ⟨by decide, by decide,
    (other_specifier_is_header_only nestedMessage [2] .HeaderSpecifier [20, 1]
      (by decide) (by decide)).mpr ⟨partB, rfl, rfl⟩⟩

/-! ## C5: the partial range -/

/-- What the code does with a partial range: it returns an error exactly when the
request without the range returns that error, and otherwise cuts the range out of the
buffer as it is before the writer is closed, a prefix of what the request without the
range returns. -/
theorem range_cut_before_close (e : Entity) (sec : BodySectionName)
    (offset length : Nat) :
    (∀ err, (FetchBodySection e { sec with Partial := some (offset, length) }).result
          = .error err
        ↔ (FetchBodySection e { sec with Partial := none }).result = .error err)
    ∧ (∀ b, (FetchBodySection e { sec with Partial := none }).result = .ok b →
        ∃ unflushed, unflushed <+: b ∧
          (FetchBodySection e { sec with Partial := some (offset, length) }).result
            = .ok ((unflushed.drop offset).take length)) := by
  simp only [FetchBodySection_result]
  cases findPart sec.Path sec.Path.length e with
  | error err => simp
  | ok t =>
    simp only
    cases hw : t.Header.wire with
    | error c => simp [render_result_error t _ c hw]
    | ok h =>
      by_cases hs : sec.Specifier = .EntireSpecifier ∨ sec.Specifier = .TextSpecifier
      · cases he : t.Body.err with
        | some c =>
          simp [render_copy_error t { sec with Partial := some (offset, length) } h c hw hs he,
            render_copy_error t { sec with Partial := none } h c hw hs he]
        | none =>
          rw [render_copied t { sec with Partial := some (offset, length) } h hw hs he,
            render_copied t { sec with Partial := none } h hw hs he]
          simp only [BodySectionName.ExtractPartial, reduceCtorEq, false_iff, iff_false,
            not_false_eq_true, implies_true, Except.ok.injEq, true_and]
          intro b hb
          exact ⟨_, ⟨_, hb⟩, rfl⟩
      · have hne : sec.Specifier ≠ .EntireSpecifier := fun h1 => hs (Or.inl h1)
        have hnt : sec.Specifier ≠ .TextSpecifier := fun h1 => hs (Or.inr h1)
        rw [render_header_only t { sec with Partial := some (offset, length) } h hw hne hnt,
          render_header_only t { sec with Partial := none } h hw hne hnt]
        simp only [BodySectionName.ExtractPartial, reduceCtorEq, false_iff, iff_false,
          not_false_eq_true, implies_true, Except.ok.injEq, true_and]
        intro b hb
        exact ⟨h, hb ▸ List.prefix_refl h, rfl⟩

/-- C5 (evaluation at the failing input): on the base64 part the request without
partial range returns 6 bytes, the header and `TQ==`; the same request with the range
(0, 1000) should return the bytes from 0 to min(1000, 6) of those, all 6 of them, and
returns the 2 header bytes only: the range is cut from the buffer before the deferred
`Close` flushes `TQ==` into it. -/
theorem range_misses_flushed_bytes :
    (FetchBodySection base64Part ⟨[], .EntireSpecifier, none⟩).result
        = .ok [50, 1, 84, 81, 61, 61]
    ∧ (([50, 1, 84, 81, 61, 61] : Bytes).take
          (min (0 + 1000) ([50, 1, 84, 81, 61, 61] : Bytes).length)).drop 0
        = [50, 1, 84, 81, 61, 61]
    ∧ (FetchBodySection base64Part ⟨[], .EntireSpecifier, some (0, 1000)⟩).result
        = .ok [50, 1]
    ∧ (FetchBodySection base64Part ⟨[], .EntireSpecifier, some (0, 1000)⟩).result
        ≠ .ok [50, 1, 84, 81, 61, 61] := by
  refine ⟨rfl, by decide, rfl, ?_⟩
  rw [show (FetchBodySection base64Part ⟨[], .EntireSpecifier, some (0, 1000)⟩).result
        = .ok [50, 1] from rfl]
  decide

/-! ## C6: the empty path -/

/-- C6: with an empty path the path loop does not run and leaves the root as the
entity to render, whatever the root is (leaf or multipart); the call is the rendering
of the root, it never returns the no-such-part error, and what the root's multipart
reader would hand back plays no part in it: no child is read. -/
theorem empty_path_is_root (e : Entity) (spec : PartSpecifier) (range : Option (Nat × Nat)) :
    findPart [] ([] : List Int).length e = .ok e
    ∧ FetchBodySection e ⟨[], spec, range⟩ = render e ⟨[], spec, range⟩
    ∧ (FetchBodySection e ⟨[], spec, range⟩).result ≠ .error .errNoSuchPart
    ∧ ∀ (parts : Option (List (Except LibError Entity))),
        FetchBodySection (.mk e.Header e.Body parts) ⟨[], spec, range⟩
          = FetchBodySection e ⟨[], spec, range⟩ := by
  refine ⟨rfl, rfl, ?_, ?_⟩
  · rw [show FetchBodySection e ⟨[], spec, range⟩ = render e ⟨[], spec, range⟩ from rfl]
    exact render_result_ne_noSuchPart e _
  · intro parts
    rfl

/-! ## C7, C8: paths that lead nowhere -/

/-- C7: on a multipart root whose reader hands back the `m` children `cs` and then
the end of the children, a path `[n]` with `n > m` returns the no-such-part error, no
literal, and creates no writer, for every specifier and partial range. -/
theorem index_past_children (h : Header) (body : Body) (cs : List Entity) (n : Int)
    (spec : PartSpecifier) (range : Option (Nat × Nat)) (hn : (cs.length : Int) < n) :
    FetchBodySection (.mk h body (some (cs.map .ok))) ⟨[n], spec, range⟩
      = ⟨.error .errNoSuchPart, none⟩ := by
  have hfind : findPart [n] [n].length (.mk h body (some (cs.map .ok)))
      = .error .errNoSuchPart := by
    have h1 : (1 : Int) ≤ n := by omega
    simp only [List.length_singleton, findPart, List.getD_cons_zero, Entity.MultipartReader,
      nextParts_run, if_pos h1]
    rw [readTo_short cs (n.toNat - 1) 0 (by omega)]
  simp only [FetchBodySection, hfind]

/-- C7, at the path `[5]` on the sample message, which has 3 top-level children. -/
theorem index_past_children_witness :
    ((([partA, partB, partC] : List Entity).length : Int) < 5)
    ∧ FetchBodySection nestedMessage ⟨[5], .EntireSpecifier, none⟩
        = ⟨.error .errNoSuchPart, none⟩ :=
  ⟨by decide, index_past_children { wire := .ok [1, 1] } ⟨[77], none⟩ [partA, partB, partC] 5
    .EntireSpecifier none (by decide)⟩

/-- The nil check of line 21, in the order in which the code uses the indexes: when
the indexes used so far (`back`, the end of the path, which is what the code uses
first) have led to an entity `t` that is not multipart and an index `n` is still to be
used, the call returns the no-such-part error, no literal, and creates no writer,
whatever `n` and the indexes after it are.  With `back = []` this is every non-empty
path on a root that is not multipart, stated apart as the second half. -/
theorem descend_into_leaf (root : Entity) (spec : PartSpecifier)
    (range : Option (Nat × Nat)) :
    (∀ (t : Entity) (front back : List Int) (n : Int),
        findPart back back.length root = .ok t → t.MultipartReader = none →
        FetchBodySection root ⟨front ++ n :: back, spec, range⟩
          = ⟨.error .errNoSuchPart, none⟩)
    ∧ (∀ (Path : List Int), Path ≠ [] → root.MultipartReader = none →
        FetchBodySection root ⟨Path, spec, range⟩ = ⟨.error .errNoSuchPart, none⟩) := by
  have key : ∀ (t : Entity) (front back : List Int) (n : Int),
      findPart back back.length root = .ok t → t.MultipartReader = none →
      FetchBodySection root ⟨front ++ n :: back, spec, range⟩
        = ⟨.error .errNoSuchPart, none⟩ := by
    intro t front back n hreach hleaf
    have hfind : findPart (front ++ n :: back) (front ++ n :: back).length root
        = .error .errNoSuchPart := by
      rw [findPart_walk] at hreach ⊢
      rw [List.reverse_append, List.reverse_cons, List.append_assoc, walk_append, hreach]
      simp only [List.singleton_append, walk, descend_leaf n t hleaf]
    simp only [FetchBodySection, hfind]
  refine ⟨key, ?_⟩
  intro Path hne hleaf
  obtain ⟨front, n, rfl⟩ : ∃ front n, Path = front ++ [n] :=
    ⟨Path.dropLast, Path.getLast hne, (List.dropLast_append_getLast hne).symm⟩
  exact key root front [] n rfl hleaf

/-- C8 (evaluation at the failing input): on a message whose first part is a leaf and
whose second part is multipart, the path `[1, 2]` read root-to-target leads to the
leaf, which is not multipart, with the index 2 still to be used, and denotes no
entity; the call should return the no-such-part error and returns a literal, the header
and body of the first child of the second part, because the code uses index 2 first. -/
theorem leaf_descent_not_refused :
    leafFirstMessage.child 1 = some partC
    ∧ partC.MultipartReader = none
    ∧ specTarget leafFirstMessage [1, 2] = none
    ∧ (FetchBodySection leafFirstMessage ⟨[1, 2], .EntireSpecifier, none⟩).result
        = .ok [11, 1, 65, 49]
    ∧ (FetchBodySection leafFirstMessage ⟨[1, 2], .EntireSpecifier, none⟩).result
        ≠ .error .errNoSuchPart := by
  refine ⟨rfl, rfl, rfl, rfl, ?_⟩
  rw [show (FetchBodySection leafFirstMessage ⟨[1, 2], .EntireSpecifier, none⟩).result
        = .ok [11, 1, 65, 49] from rfl]
  decide

/-! ## C9: an index below 1 -/

/-- C9 (evaluation at the failing input): the path `[0]` denotes no entity of the
sample message, yet the call returns a literal, the header and body of the root: the
inner loop does not run for an index below 1 and leaves the current entity in place. -/
theorem index_zero_renders_parent :
    specTarget nestedMessage [0] = none
    ∧ nestedMessage.Header.wire = .ok [1, 1] ∧ nestedMessage.Body.data = [77]
    ∧ (FetchBodySection nestedMessage ⟨[0], .EntireSpecifier, none⟩).result
        = .ok [1, 1, 77] :=
  ⟨rfl, rfl, rfl, rfl⟩

/-! ## C10: a partial range never fails -/

/-- C11: a failure of a collaborator is returned as it is, with no literal.  (1) When
the indexes used so far have led to an entity whose reader, after children only,
reports an error `c` at or before the call for the index `n`, the call returns `c`.
(2) When the header of the entity found fails to serialize with `c`, the call returns
`c`.  (3) When the body is copied (entire or text specifier) and fails to read with
`c`, the call returns `c`.  (4) The no-such-part error is returned only when some index
meets an entity that is not multipart or a reader that runs out of children before the
index. -/
theorem failures_are_passed_on (root : Entity) :
    (∀ (t : Entity) (front back : List Int) (n : Int) (spec : PartSpecifier)
        (range : Option (Nat × Nat)) (pre : List Entity) (c : LibError)
        (post : List (Except LibError Entity)),
        findPart back back.length root = .ok t →
        t.MultipartReader = some ⟨pre.map .ok ++ .error c :: post, 0⟩ →
        (pre.length : Int) < n →
        FetchBodySection root ⟨front ++ n :: back, spec, range⟩ = ⟨.error (.lib c), none⟩)
    ∧ (∀ (sec : BodySectionName) (t : Entity) (c : LibError),
        findPart sec.Path sec.Path.length root = .ok t → t.Header.wire = .error c →
        FetchBodySection root sec = ⟨.error (.lib c), none⟩)
    ∧ (∀ (sec : BodySectionName) (t : Entity) (h : Bytes) (c : LibError),
        findPart sec.Path sec.Path.length root = .ok t → t.Header.wire = .ok h →
        (sec.Specifier = .EntireSpecifier ∨ sec.Specifier = .TextSpecifier) →
        t.Body.err = some c →
        FetchBodySection root sec = ⟨.error (.lib c), some ⟨true⟩⟩)
    ∧ (∀ (sec : BodySectionName),
        (FetchBodySection root sec).result = .error .errNoSuchPart →
        ∃ (front : List Int) (n : Int) (back : List Int) (t : Entity),
          sec.Path = front ++ n :: back ∧ findPart back back.length root = .ok t ∧
          (t.MultipartReader = none ∨
            ∃ (mr : MultipartReader) (cs : List Entity),
              t.MultipartReader = some mr ∧ mr.rest = cs.map .ok ∧
              (cs.length : Int) < n)) := by
  refine ⟨?_, ?_, ?_, ?_⟩
  · intro t front back n spec range pre c post hreach hmr hn
    have h1 : (1 : Int) ≤ n := by omega
    have hd : descend n t = .error (.lib c) := by
      rw [descend_eq, hmr]
      simp only [if_pos h1]
      rw [readTo_error pre c post (n.toNat - 1) 0 (by omega)]
      rfl
    rw [FetchBodySection_eq]
    simp only [findPart_split root t front back n hreach, hd]
  · intro sec t c hfind hw
    rw [FetchBodySection_eq, hfind]
    simp only [render, CreateWriter, hw]
  · intro sec t h c hfind hw hspec he
    rw [FetchBodySection_eq, hfind]
    rcases hspec with hs | hs <;>
      simp [render, CreateWriter, hw, hs, Copy, he, Writer.Close]
  · intro sec hres
    rw [FetchBodySection_result] at hres
    cases hfind : findPart sec.Path sec.Path.length root with
    | ok t =>
      rw [hfind] at hres
      exact absurd hres (render_result_ne_noSuchPart t sec)
    | error err =>
      rw [hfind] at hres
      simp only [Except.error.injEq] at hres
      subst hres
      rw [findPart_walk] at hfind
      obtain ⟨pre, n, post, t, hxs, hwalk, hcase⟩ := walk_noSuchPart _ root hfind
      refine ⟨post.reverse, n, pre.reverse, t, ?_, ?_, hcase⟩
      · have := congrArg List.reverse hxs
        simpa using this
      · rw [findPart_walk, List.reverse_reverse]
        exact hwalk

/-- C11, on a multipart message whose reader fails with error 7 at its second call:
the path `[3]` returns that error, not the no-such-part error. -/
theorem failures_are_passed_on_witness :
    FetchBodySection brokenReaderMessage ⟨[] ++ 3 :: [], .EntireSpecifier, none⟩
      = ⟨.error (.lib ⟨7⟩), none⟩ :=
  (failures_are_passed_on brokenReaderMessage).1 brokenReaderMessage [] [] 3
    .EntireSpecifier none [partA1] ⟨7⟩ [.ok partA2] rfl rfl (by decide)

/-! ## C12: entire against header-only -/

/-- C12: when the entire specifier renders `full` for a path (no partial range), every
specifier other than entire and text, the header-only one among them, renders for the
same path a literal that is a prefix of `full`, hence no longer than `full`. -/
theorem header_is_prefix_of_entire (root : Entity) (Path : List Int)
    (spec : PartSpecifier) (full : Bytes)
    (hne : spec ≠ .EntireSpecifier) (hnt : spec ≠ .TextSpecifier)
    (hfull : (FetchBodySection root ⟨Path, .EntireSpecifier, none⟩).result = .ok full) :
    ∃ hdr, (FetchBodySection root ⟨Path, spec, none⟩).result = .ok hdr
      ∧ hdr <+: full ∧ hdr.length ≤ full.length := by
  rw [FetchBodySection_result] at hfull ⊢
  cases hf : findPart Path Path.length root with
  | error err => simp [hf] at hfull
  | ok t =>
    simp only [hf] at hfull ⊢
    cases hw : t.Header.wire with
    | error c => simp [render_result_error t _ c hw] at hfull
    | ok h =>
      cases he : t.Body.err with
      | some c =>
        simp [render_copy_error t ⟨Path, .EntireSpecifier, none⟩ h c hw (Or.inl rfl) he]
          at hfull
      | none =>
        rw [render_copied t _ h hw (Or.inl rfl) he] at hfull
        simp only [reduceCtorEq, if_false, Except.ok.injEq, List.append_assoc] at hfull
        subst hfull
        refine ⟨h, ?_, ?_, ?_⟩
        · rw [render_header_only t _ h hw hne hnt]
        · exact List.prefix_append h _
        · simp

/-- C12, on the second top-level part of the sample message: the header `[20, 1]`
against the entire rendering `[20, 1, 66]`. -/
theorem header_is_prefix_of_entire_witness :
    PartSpecifier.HeaderSpecifier ≠ .EntireSpecifier
    ∧ PartSpecifier.HeaderSpecifier ≠ .TextSpecifier
    ∧ (FetchBodySection nestedMessage ⟨[2], .EntireSpecifier, none⟩).result = .ok [20, 1, 66]
    ∧ ∃ hdr, (FetchBodySection nestedMessage ⟨[2], .HeaderSpecifier, none⟩).result = .ok hdr
        ∧ hdr <+: [20, 1, 66] ∧ hdr.length ≤ ([20, 1, 66] : Bytes).length :=
  ⟨by decide, by decide, rfl,
    header_is_prefix_of_entire nestedMessage [2] .HeaderSpecifier [20, 1, 66]
      (by decide) (by decide) rfl⟩

/-! ## C13: the header writer at return -/

/-- C13: whatever the call returns, a literal or an error, a header writer that is
there when the call returns is closed; and a writer is there exactly when one was
created, that is when the path loop found an entity and its header serialized.  No
call returns with a writer still open. -/
theorem writer_closed_on_return (e : Entity) (sec : BodySectionName) :
    (∀ w, (FetchBodySection e sec).mw = some w → w.closed = true)
    ∧ ((∃ w, (FetchBodySection e sec).mw = some w) ↔
        ∃ t h, findPart sec.Path sec.Path.length e = .ok t ∧ t.Header.wire = .ok h) := by
  rw [FetchBodySection_eq]
  cases hf : findPart sec.Path sec.Path.length e with
  | error err => simp
  | ok t =>
    simp only [render_mw]
    cases hw : t.Header.wire with
    | error c => simp [hw]
    | ok h =>
      simp only [Option.some.injEq]
      refine ⟨?_, ?_⟩
      · intro w hw'
        rw [← hw']
      · simp [hw]

/-- C13, on an error path after the writer was created: the body of the entity fails
to read, the call returns that error, and the writer is closed. -/
theorem writer_closed_on_return_witness :
    (FetchBodySection brokenBodyPart ⟨[], .EntireSpecifier, none⟩).result
      = .error (.lib ⟨9⟩)
    ∧ (FetchBodySection brokenBodyPart ⟨[], .EntireSpecifier, none⟩).mw = some ⟨true⟩
    ∧ (⟨true⟩ : Writer).closed = true :=
  ⟨rfl, rfl,
    (writer_closed_on_return brokenBodyPart ⟨[], .EntireSpecifier, none⟩).1 ⟨true⟩ rfl⟩

/-! ## C14: the reads at one level -/

/-- C14: (1) when the inner loop for the index `n` ends without error, the reader has
been called `n` times (not at all for `n` below 1) and stands right after the results
of those calls.  (2) The entity the loop ends on is the same whatever the reader would
hand back after its first `n` results `pre`, children or read errors.  (3) So at any
level, for `n` at least 1: when the indexes used so far lead to an entity whose reader
starts with the `n` results `pre`, the whole call returns what it returns on an entity
with the same header, body and first `n` results and anything else after them. -/
theorem reads_stop_at_index (n : Int) :
    (∀ (mr : MultipartReader) (e p : Entity) (mr' : MultipartReader),
        nextParts n n.toNat 1 mr e = .ok (p, mr') →
        mr'.calls = mr.calls + n.toNat ∧ mr'.rest = mr.rest.drop n.toNat)
    ∧ (∀ (pre post post' : List (Except LibError Entity)) (calls : Nat) (e : Entity),
        pre.length = n.toNat →
        (nextParts n n.toNat 1 ⟨pre ++ post', calls⟩ e).map Prod.fst
          = (nextParts n n.toNat 1 ⟨pre ++ post, calls⟩ e).map Prod.fst)
    ∧ (∀ (root : Entity) (front back : List Int) (h : Header) (body : Body)
        (pre post post' : List (Except LibError Entity)) (spec : PartSpecifier)
        (range : Option (Nat × Nat)),
        1 ≤ n → pre.length = n.toNat →
        findPart back back.length root = .ok (.mk h body (some (pre ++ post))) →
        FetchBodySection root ⟨front ++ n :: back, spec, range⟩
          = FetchBodySection (.mk h body (some (pre ++ post')))
              ⟨front ++ [n], spec, range⟩) := by
  refine ⟨?_, ?_, ?_⟩
  · intro mr e p mr' hrun
    rw [nextParts_run] at hrun
    split_ifs at hrun with h1
    · obtain ⟨hc, hr⟩ := readTo_calls _ mr p mr' hrun
      have hk : n.toNat - 1 + 1 = n.toNat := by omega
      rw [hk] at hc hr
      exact ⟨hc, hr⟩
    · simp only [Except.ok.injEq, Prod.mk.injEq] at hrun
      obtain ⟨-, rfl⟩ := hrun
      have hz : n.toNat = 0 := by omega
      simp [hz]
  · intro pre post post' calls e hlen
    rw [nextParts_run, nextParts_run]
    split_ifs with h1
    · exact readTo_first_results (n.toNat - 1) pre post post' calls (by omega)
    · rfl
  · intro root front back h body pre post post' spec range h1 hlen hreach
    have hd : descend n (.mk h body (some (pre ++ post)))
        = descend n (.mk h body (some (pre ++ post'))) := by
      rw [descend_eq, descend_eq]
      simp only [Entity.MultipartReader, if_pos h1]
      exact (readTo_first_results (n.toNat - 1) pre post post' 0 (by omega)).symm
    rw [FetchBodySection_eq, FetchBodySection_eq]
    simp only [findPart_split root _ front back n hreach,
      findPart_split (.mk h body (some (pre ++ post'))) _ front [] n rfl, hd]
    cases descend n (.mk h body (some (pre ++ post'))) with
    | error err => rfl
    | ok e' =>
      simp only
      cases walk front.reverse e' <;> rfl

/-- C14, on a message whose reader hands back two children and fails at its third
call: the path `[2]` returns the second child, header `[12, 1]` and body `[65, 50]`,
as it does when nothing comes after the two children. -/
theorem reads_stop_at_index_witness :
    (FetchBodySection trailingErrorMessage ⟨[] ++ 2 :: [], .EntireSpecifier, none⟩).result
      = .ok [12, 1, 65, 50]
    ∧ FetchBodySection trailingErrorMessage ⟨[] ++ 2 :: [], .EntireSpecifier, none⟩
      = FetchBodySection
          (.mk { wire := .ok [1, 1] } ⟨[77], none⟩ (some ([.ok partA1, .ok partA2] ++ [])))
          ⟨[] ++ [2], .EntireSpecifier, none⟩ :=
  ⟨rfl, (reads_stop_at_index 2).2.2 trailingErrorMessage [] [] { wire := .ok [1, 1] }
    ⟨[77], none⟩
    [.ok partA1, .ok partA2] [.error ⟨7⟩] [] .EntireSpecifier none (by decide) rfl rfl⟩

end backendutil
